import Mathlib

/-!
Verification of the PGFRAME framing layer (`libs/pq_proto/src/framed.rs`) and
the SHMPIPE shared-memory pipe (`libs/shmempipe/src/lib.rs`).

Bytes are modelled as `Nat`; byte buffers as `List Nat`.  The asynchronous byte
stream of PGFRAME is modelled as the list of chunks successive reads return
(an empty chunk, or running out of chunks, is a read returning 0 bytes, i.e.
EOF).  The stream's write side is modelled by the list of byte counts the
stream accepts on successive `write` calls.
-/

namespace PqProto

/-- A byte of the wire stream. -/
abbrev Byte := Nat

/-- Startup-packet variants (`FeStartupPacket` in pq_proto).  `framed.rs`
pattern-matches on the `StartupMessage` variant; the spec lists the other
startup variants as `SslRequest` and `CancelRequest`. -/
inductive FeStartupPacket where
  | StartupMessage (major minor : Nat) (params : List Byte)
  | SslRequest
  | CancelRequest (pid key : Nat)
deriving DecidableEq

/-- Frontend message as seen by `framed.rs`: either the startup packet or a
typed message (1-byte tag plus body). -/
inductive FeMessage where
  | StartupPacket (p : FeStartupPacket)
  | Typed (tag : Byte) (body : List Byte)
deriving DecidableEq

/-- Kinds of I/O errors that `framed.rs` constructs. -/
inductive IoErrorKind where
  | UnexpectedEof
  | WriteZero
deriving DecidableEq

/-- `ConnectionError` of `framed.rs`: transport failure or protocol
violation. -/
inductive ConnectionError where
  | Io (k : IoErrorKind)
  | Protocol (e : String)
deriving DecidableEq

/-- A message parser as invoked by `decode`: it consumes from the read buffer
and yields either a protocol error or an optional message (`none` means the
buffer does not yet hold a whole frame), together with the updated buffer.
`FeStartupPacket::parse` and `FeMessage::parse` live outside `framed.rs`, so
`decode` is verified for every parser of this shape. -/
abbrev Parser := List Byte → Except String (Option FeMessage) × List Byte

/-- Everything one `decode` call produces: its result, the updated read
buffer, the updated `startup_read` flag, and which of the two parsers it
invoked. -/
structure DecodeOut where
  result : Except ConnectionError (Option FeMessage)
  buf : List Byte
  startup_read : Bool
  startupInvoked : Bool
  typedInvoked : Bool

/-- Is this decode result the `StartupMessage` variant?  Mirrors the
`if let Ok(Some(FeMessage::StartupPacket(FeStartupPacket::StartupMessage {..})))`
pattern in `decode`. -/
def isStartupMessage : Except String (Option FeMessage) → Bool
  | .ok (some (.StartupPacket (.StartupMessage _ _ _))) => true
  | _ => false

/-- `decode` of `framed.rs`: before the first startup message, parse a startup
packet and set `startup_read` exactly when the parse yields the
`StartupMessage` variant; afterwards parse typed messages only.  Protocol
errors are wrapped into `ConnectionError.Protocol`. -/
def decode (startupParse typedParse : Parser) (src : List Byte)
    (startup_read : Bool) : DecodeOut :=
  if !startup_read then
    let out := startupParse src
    let sr := isStartupMessage out.1
    match out with
    | (.ok m, src') => ⟨.ok m, src', sr, true, false⟩
    | (.error e, src') => ⟨.error (.Protocol e), src', sr, true, false⟩
  else
    match typedParse src with
    | (.ok m, src') => ⟨.ok m, src', true, false, true⟩
    | (.error e, src') => ⟨.error (.Protocol e), src', true, false, true⟩

/-- Result of `read_message`: the value returned plus the final read-buffer
and startup-flag state. -/
structure ReadOut where
  result : Except ConnectionError (Option FeMessage)
  buf : List Byte
  startup_read : Bool

/-- `read_message` of `framed.rs`.  `chunks` is the list of chunks the stream
will deliver on successive reads; an empty chunk (or exhausting the list) is a
read returning 0.  Loop: try `decode`; on a frame or error return; otherwise
read.  A zero read fails with `UnexpectedEof` when the buffer still has
unprocessed bytes and returns a clean EOF (`.ok none`) otherwise. -/
def read_message (sp tp : Parser) :
    List (List Byte) → List Byte → Bool → ReadOut
  | chunks, buf, sr =>
    let d := decode sp tp buf sr
    match d.result with
    | .error e => ⟨.error e, d.buf, d.startup_read⟩
    | .ok (some m) => ⟨.ok (some m), d.buf, d.startup_read⟩
    | .ok none =>
      match chunks with
      | [] =>
        if d.buf ≠ [] then ⟨.error (.Io .UnexpectedEof), d.buf, d.startup_read⟩
        else ⟨.ok none, d.buf, d.startup_read⟩
      | c :: rest =>
        if c.isEmpty then
          if d.buf ≠ [] then ⟨.error (.Io .UnexpectedEof), d.buf, d.startup_read⟩
          else ⟨.ok none, d.buf, d.startup_read⟩
        else read_message sp tp rest (d.buf ++ c) d.startup_read

/-- Outcome of a `flush` run. -/
inductive FlushResult where
  | ok
  | writeZero
  | pending
deriving DecidableEq

/-- What a `flush` run did: its outcome, the final write-buffer contents, the
bytes transmitted to the stream in order, and whether `stream.flush()` was
reached. -/
structure FlushOut where
  result : FlushResult
  buf : List Byte
  sent : List Byte
  streamFlushed : Bool
deriving DecidableEq

/-- `flush` of `framed.rs`.  `accepts` lists the byte counts the stream's
`write` accepts on successive calls (capped by the bytes offered).  While the
buffer has remaining bytes: a zero-byte write yields the `WriteZero` error
before any buffer mutation; otherwise the buffer is advanced by the count
written.  Once drained the buffer is cleared and the stream flushed.
Exhausting `accepts` with bytes still buffered models the task suspending in
`write` (where a cancellation would drop it): `pending`. -/
def flush : List Nat → List Byte → FlushOut
  | _, [] => ⟨.ok, [], [], true⟩
  | [], buf => ⟨.pending, buf, [], false⟩
  | a :: rest, buf =>
    let k := min a buf.length
    if k = 0 then ⟨.writeZero, buf, [], false⟩
    else
      let o := flush rest (buf.drop k)
      ⟨o.result, o.buf, buf.take k ++ o.sent, o.streamFlushed⟩

theorem flush_sent_append (accepts : List Nat) :
    ∀ buf : List Byte, (flush accepts buf).sent ++ (flush accepts buf).buf = buf := by
  induction accepts with
  | nil =>
    intro buf
    cases buf <;> simp [flush]
  | cons a rest ih =>
    intro buf
    cases buf with
    | nil => simp [flush]
    | cons b bs =>
      simp only [flush]
      by_cases hk : min a (b :: bs).length = 0
      · rw [if_pos hk]
        rfl
      · rw [if_neg hk]
        dsimp only
        rw [List.append_assoc, ih]
        exact List.take_append_drop _ _

theorem flush_ok_drained (accepts : List Nat) :
    ∀ buf : List Byte, (flush accepts buf).result = .ok →
      (flush accepts buf).buf = [] ∧ (flush accepts buf).streamFlushed = true := by
  induction accepts with
  | nil =>
    intro buf h
    cases buf with
    | nil => simp [flush]
    | cons b bs => simp [flush] at h
  | cons a rest ih =>
    intro buf h
    cases buf with
    | nil => simp [flush]
    | cons b bs =>
      simp only [flush] at h ⊢
      by_cases hk : min a (b :: bs).length = 0
      · rw [if_pos hk] at h
        exact FlushResult.noConfusion h
      · rw [if_neg hk] at h ⊢
        dsimp only at h ⊢
        exact ih _ h

/-- C1: with the startup flag false, `decode` invokes only the startup parser
and sets the flag to true exactly when the parse yields the `StartupMessage`
variant (so `SslRequest` and `CancelRequest` leave it false); with the flag
true, `decode` invokes only the typed-message parser, never the startup
parser, and the flag stays true. -/
theorem decode_startup_state_machine (sp tp : Parser) (src : List Byte) :
    ((decode sp tp src false).startupInvoked = true ∧
      (decode sp tp src false).typedInvoked = false ∧
      ((decode sp tp src false).startup_read = true ↔
        ∃ major minor params, (decode sp tp src false).result =
          .ok (some (.StartupPacket (.StartupMessage major minor params))))) ∧
    ((decode sp tp src true).startupInvoked = false ∧
      (decode sp tp src true).typedInvoked = true ∧
      (decode sp tp src true).startup_read = true) := by
  constructor
  · rcases hs : sp src with ⟨r, src'⟩
    rcases r with e | m
    · simp [decode, hs, isStartupMessage]
    · rcases m with _ | msg
      · simp [decode, hs, isStartupMessage]
      · rcases msg with p | ⟨tag, body⟩
        · rcases p with ⟨maj, mino, ps⟩ | _ | ⟨pid, key⟩ <;>
            simp [decode, hs, isStartupMessage]
        · simp [decode, hs, isStartupMessage]
  · rcases ht : tp src with ⟨r, src'⟩
    rcases r with e | m <;> simp [decode, ht]

/-- C2: inside `read_message`, a stream read returning 0 bytes yields an
`UnexpectedEof` I/O error when the read buffer still holds unprocessed bytes
and the clean-EOF value (`.ok none`) when the buffer is empty.  This covers
both ways a zero read arises: an empty chunk and an exhausted stream. -/
theorem read_message_zero_read (sp tp : Parser) (rest : List (List Byte))
    (buf : List Byte) (sr : Bool)
    (hneed : (decode sp tp buf sr).result = .ok none)
    (hkeep : (decode sp tp buf sr).buf = buf) :
    (read_message sp tp ([] :: rest) buf sr).result =
      (if buf = [] then .ok none else .error (.Io .UnexpectedEof)) ∧
    (read_message sp tp [] buf sr).result =
      (if buf = [] then .ok none else .error (.Io .UnexpectedEof)) := by
  constructor
  · simp only [read_message, hneed, hkeep, List.isEmpty_nil, if_true]
    by_cases hb : buf = [] <;> simp [hb]
  · simp only [read_message, hneed, hkeep]
    by_cases hb : buf = [] <;> simp [hb]

theorem read_message_zero_read_witness :
    (read_message (fun b => (.ok none, b)) (fun b => (.ok none, b))
        [[]] [1] false).result = .error (.Io .UnexpectedEof) := by
  have h := (read_message_zero_read (fun b => (.ok none, b)) (fun b => (.ok none, b))
      [] [1] false rfl rfl).1
  simpa using h

/-- C3: a `write` accepting zero bytes while the buffer is non-empty makes
`flush` fail with the `WriteZero` error, buffer untouched; at every stop the
bytes already sent followed by the final buffer reconstruct the original
buffer (so an aborted flush resumes exactly where it left off); and a flush
that drains the buffer ends with an empty, cleared buffer and flushes the
stream. -/
theorem flush_write_zero_and_resume (accepts rest : List Nat) (buf : List Byte)
    (hbuf : buf ≠ []) :
    flush (0 :: rest) buf = ⟨.writeZero, buf, [], false⟩ ∧
    (flush accepts buf).sent ++ (flush accepts buf).buf = buf ∧
    ((flush accepts buf).result = .ok →
      (flush accepts buf).buf = [] ∧ (flush accepts buf).streamFlushed = true) := by
  refine ⟨?_, flush_sent_append accepts buf, fun h => flush_ok_drained accepts buf h⟩
  cases buf with
  | nil => exact absurd rfl hbuf
  | cons b bs => simp [flush]

theorem flush_write_zero_and_resume_witness :
    flush (0 :: [2]) [5, 6] = ⟨.writeZero, [5, 6], [], false⟩ :=
  (flush_write_zero_and_resume [2] [2] [5, 6] (by decide)).1

end PqProto

namespace Shmempipe

/-- The u32 modulus. -/
def M32 : Nat := 2 ^ 32

/-- Rust `u32::wrapping_add` on values represented as `Nat`. -/
def wrapping_add (a b : Nat) : Nat := (a + b) % M32

/-- Rust `u32::wrapping_sub` on values represented as `Nat`. -/
def wrapping_sub (a b : Nat) : Nat := (a % M32 + (M32 - b % M32)) % M32

/-- The ticket counter after `k` mints starting from `c`: `send_request` mints
`id = *g` and advances `*g = g.wrapping_add(1)` under the producer lock, so
the ticket of the request submitted `k` requests later is `k` iterated
wrapping increments ahead. -/
def ticketAfter (c : Nat) : Nat → Nat
  | 0 => c
  | k + 1 => wrapping_add (ticketAfter c k) 1

theorem ticketAfter_eq (c : Nat) (hc : c < M32) :
    ∀ k, ticketAfter c k = (c + k) % M32 := by
  intro k
  induction k with
  | zero => simp [ticketAfter, Nat.mod_eq_of_lt hc]
  | succ k ih => rw [ticketAfter, ih, wrapping_add, Nat.mod_add_mod, Nat.add_assoc]

/-- C5: tickets advance by `wrapping_add` one per request, the consumer
computes the waiting distance as `id.wrapping_sub(next)`, and for every pair
of tickets, including pairs straddling the 2^32 wrap, that distance equals
the number of requests submitted between them modulo 2^32. -/
theorem ticket_wrap_distance (next k : Nat) (h : next < M32) :
    wrapping_sub (ticketAfter next k) next = k % M32 := by
  rw [ticketAfter_eq next h k, wrapping_sub, Nat.mod_eq_of_lt h,
    Nat.mod_mod_of_dvd _ dvd_rfl, Nat.mod_add_mod]
  have hstep : next + k + (M32 - next) = M32 + k := by omega
  rw [hstep, Nat.add_mod_left]

theorem ticket_wrap_distance_witness :
    wrapping_sub (ticketAfter (M32 - 1) 5) (M32 - 1) = 5 % M32 :=
  ticket_wrap_distance (M32 - 1) 5 (by norm_num [M32])


/-- The bytes of the literal `"/walredo-"` that `shmempipe_open_via_env`
copies in front of the tenant id. -/
def walredoHeader : List Nat := [47, 119, 97, 108, 114, 101, 100, 111, 45]

/-- `CStr::from_bytes_with_nul`: accepts the buffer exactly when its final
byte is NUL and no earlier byte is. -/
def cstr_from_bytes_with_nul (b : List Nat) : Option (List Nat) :=
  if b.getLast? = some 0 ∧ (0 : Nat) ∉ b.dropLast then some b else none

/-- `shmempipe_open_via_env`: read `WALREDO_TENANT` (`env`), demand exactly
32 bytes, build the `/walredo-<id>` path with a terminating NUL, and hand it
to `open_existing`/`try_acquire_responder` (abstracted as `openAcquire`
because they perform shm/mmap I/O against the OS); null (`none`) on every
other env value or when the open/acquire fails. -/
def shmempipe_open_via_env (env : Option (List Nat))
    (openAcquire : List Nat → Option Unit) : Option Unit :=
  match env with
  | none => none
  | some x =>
    if x.length = 32 then
      match cstr_from_bytes_with_nul (walredoHeader ++ x ++ [0]) with
      | some p => openAcquire p
      | none => none
    else none

/-- Is the byte an ASCII hex digit? -/
def isHexDigit (b : Nat) : Bool :=
  decide ((48 ≤ b ∧ b ≤ 57) ∨ (97 ≤ b ∧ b ≤ 102) ∨ (65 ≤ b ∧ b ≤ 70))

/-- C6 counterexample: an env value of 32 `z` bytes is not hex, yet the
function proceeds past its validation and returns the acquired responder
(non-null) whenever the join and acquisition succeed: hex content is never
checked. -/
theorem open_via_env_hex_cex :
    shmempipe_open_via_env (some (List.replicate 32 122)) (fun _ => some ()) =
      some () ∧
    (List.replicate 32 122).all isHexDigit = false := by decide

/-- C6 amended: the function returns non-null only when `WALREDO_TENANT` is
present with exactly 32 bytes (hex content is not validated); an absent or
wrong-length value returns null, as does any open/acquire failure; and on the
success path the shared-memory path handed to the open is exactly
`/walredo-<id>` with a terminating NUL. -/
theorem open_via_env_amended (env : Option (List Nat))
    (oa : List Nat → Option Unit) (x : List Nat) :
    shmempipe_open_via_env none oa = none ∧
    (x.length ≠ 32 → shmempipe_open_via_env (some x) oa = none) ∧
    (x.length = 32 → (0 : Nat) ∉ x →
      shmempipe_open_via_env (some x) oa = oa (walredoHeader ++ x ++ [0])) ∧
    ((shmempipe_open_via_env env oa).isSome → ∃ y, env = some y ∧ y.length = 32) := by
  refine ⟨rfl, ?_, ?_, ?_⟩
  · intro h
    simp [shmempipe_open_via_env, h]
  · intro h hz
    have hlast : ((walredoHeader ++ x) ++ [0]).getLast? = some 0 := by simp
    have hdrop : ((walredoHeader ++ x) ++ [0]).dropLast = walredoHeader ++ x := by
      simp
    have hcond : ((walredoHeader ++ x) ++ [0]).getLast? = some 0 ∧
        (0 : Nat) ∉ ((walredoHeader ++ x) ++ [0]).dropLast := by
      refine ⟨hlast, ?_⟩
      rw [hdrop]
      intro hmem
      rcases List.mem_append.mp hmem with hh | hx
      · revert hh
        decide
      · exact hz hx
    have hcstr : cstr_from_bytes_with_nul ((walredoHeader ++ x) ++ [0]) =
        some ((walredoHeader ++ x) ++ [0]) := by
      rw [cstr_from_bytes_with_nul, if_pos hcond]
    have hcstr2 : cstr_from_bytes_with_nul (walredoHeader ++ (x ++ [0])) =
        some (walredoHeader ++ (x ++ [0])) := by
      rw [← List.append_assoc]
      exact hcstr
    simp [shmempipe_open_via_env, h, hcstr2]
  · intro hs
    cases env with
    | none => simp [shmempipe_open_via_env] at hs
    | some y =>
      by_cases hl : y.length = 32
      · exact ⟨y, rfl, hl⟩
      · simp [shmempipe_open_via_env, hl] at hs

theorem open_via_env_amended_witness :
    shmempipe_open_via_env (some (List.replicate 32 97)) (fun _ => some ()) =
      some () := by
  have h := (open_via_env_amended (some (List.replicate 32 97)) (fun _ => some ())
      (List.replicate 32 97)).2.2.1 (by decide) (by decide)
  exact h.trans rfl

/-- `u32::to_ne_bytes` on the little-endian targets the crate runs on. -/
def to_ne_bytes (x : Nat) : List Nat :=
  [x % 256, x / 2 ^ 8 % 256, x / 2 ^ 16 % 256, x / 2 ^ 24 % 256]

/-- `u32::try_from` on a `usize` length. -/
def u32_try_from (n : Nat) : Option Nat := if n < 2 ^ 32 then some n else none

/-- The byte sequence `send_request` pushes into the `to_worker` ring for one
request: the length converted through `u32::try_from` (panicking with
`message cannot be more than 4GB` past `u32::MAX`) as a 4-byte native-endian
value, followed by the payload. -/
def send_request_bytes (req : List Nat) : Except String (List Nat) :=
  match u32_try_from req.length with
  | some len => .ok (to_ne_bytes len ++ req)
  | none => .error "message cannot be more than 4GB"

/-- C7 counterexample: a request of 2^32 bytes is rejected, but the message
is `message cannot be more than 4GB`, not `cannot exceed 4 GB` as the claim
states. -/
theorem send_request_reject_message_cex :
    send_request_bytes (List.replicate (2 ^ 32) 0) =
      .error "message cannot be more than 4GB" ∧
    "message cannot be more than 4GB" ≠ "cannot exceed 4 GB" := by
  constructor
  · have hlen : (List.replicate (2 ^ 32) (0 : Nat)).length = 2 ^ 32 :=
      List.length_replicate _ _
    have hu : u32_try_from (2 ^ 32) = none := by
      rw [u32_try_from, if_neg (lt_irrefl _)]
    rw [send_request_bytes, hlen, hu]
  · decide

/-- C7 amended: a request longer than 2^32 − 1 bytes is rejected (a panic
with message `message cannot be more than 4GB`); for every request of length
at most 2^32 − 1 the conversion succeeds and the transmitted bytes are the
4-byte native-endian length followed by the payload. -/
theorem send_request_frame (req : List Nat) (h : req.length ≤ 2 ^ 32 - 1) :
    send_request_bytes req = .ok (to_ne_bytes req.length ++ req) ∧
    (to_ne_bytes req.length).length = 4 ∧
    (∀ big : List Nat, 2 ^ 32 - 1 < big.length →
      send_request_bytes big = .error "message cannot be more than 4GB") := by
  have hlt : req.length < 2 ^ 32 := by omega
  refine ⟨?_, rfl, ?_⟩
  · have hsome : u32_try_from req.length = some req.length := by
      rw [u32_try_from, if_pos hlt]
    rw [send_request_bytes, hsome]
  · intro big hbig
    have hge : ¬big.length < 2 ^ 32 := by omega
    have hu : u32_try_from big.length = none := by
      rw [u32_try_from, if_neg hge]
    rw [send_request_bytes, hu]

theorem send_request_frame_witness :
    send_request_bytes [7, 8, 9] = .ok [3, 0, 0, 0, 7, 8, 9] := by
  have h := (send_request_frame [7, 8, 9] (by norm_num)).1
  exact h.trans rfl

/-- The branch taken by one iteration of the send closure in `send_request`:
break out (request drained), the `n == 0` branch (sync the postponed head and
post the wakeup once), the `n != 0` branch (reset the spin counter and spin),
the `consecutive_spins < 1024` branch (count a spin), or the final
`yield_now` branch. -/
inductive SendAction where
  | breakLoop
  | syncWake
  | progressSpin
  | spinIncr
  | yieldNow
deriving DecidableEq

/-- Loop-local state of the send closure: bytes of the slice still unsent,
the `consecutive_spins` counter, and the `might_wait` flag. -/
structure SendIter where
  rem : Nat
  spins : Nat
  might_wait : Bool

/-- One iteration of the send closure, mirroring the source's if/else chain
branch for branch (including the two branches after `else if n != 0`, which
the chain can never reach).  `pushed` is what `push_slice` returned, capped
by the bytes still unsent. -/
def sendStep (s : SendIter) (pushed : Nat) : SendAction × SendIter :=
  let n := min pushed s.rem
  let rem' := s.rem - n
  if rem' = 0 then (.breakLoop, ⟨0, s.spins, s.might_wait⟩)
  else if n = 0 then (.syncWake, ⟨rem', s.spins, false⟩)
  else if n ≠ 0 then (.progressSpin, ⟨rem', 0, s.might_wait⟩)
  else if s.spins < 1024 then (.spinIncr, ⟨rem', s.spins + 1, s.might_wait⟩)
  else (.yieldNow, ⟨rem', s.spins, s.might_wait⟩)

/-- The branches the send closure takes across a run, one entry per
iteration, stopping at the break. -/
def sendLoopActions (s : SendIter) : List Nat → List SendAction
  | [] => []
  | p :: rest =>
    let st := sendStep s p
    if st.1 = .breakLoop then [st.1]
    else st.1 :: sendLoopActions st.2 rest

theorem sendStep_action (s : SendIter) (p : Nat) :
    (sendStep s p).1 = .breakLoop ∨ (sendStep s p).1 = .syncWake ∨
      (sendStep s p).1 = .progressSpin := by
  unfold sendStep
  by_cases h0 : s.rem - min p s.rem = 0
  · simp [h0]
  · by_cases hn : min p s.rem = 0
    · have hs : ¬s.rem = 0 := by omega
      simp [h0, hn, hs]
    · simp [h0, hn]

theorem sendLoopActions_mem (pushes : List Nat) :
    ∀ (s : SendIter) (a : SendAction), a ∈ sendLoopActions s pushes →
      a = .breakLoop ∨ a = .syncWake ∨ a = .progressSpin := by
  induction pushes with
  | nil =>
    intro s a h
    simp [sendLoopActions] at h
  | cons p rest ih =>
    intro s a h
    simp only [sendLoopActions] at h
    by_cases hb : (sendStep s p).1 = .breakLoop
    · rw [if_pos hb] at h
      rcases List.mem_singleton.mp h with rfl
      exact .inl hb
    · rw [if_neg hb] at h
      rcases List.mem_cons.mp h with rfl | h2
      · exact sendStep_action s p
      · exact ih _ _ h2

/-- C8: in `send_request`'s transmission loop the thread never yields, no
matter how many consecutive iterations push zero bytes: the `n == 0` branch
precedes the spin-counting branches, so `consecutive_spins` is never
incremented and `yield_now` is unreachable.  This contradicts the claimed
yield after 1024 empty iterations. -/
theorem send_request_never_yields (s : SendIter) (pushes : List Nat) :
    SendAction.yieldNow ∉ sendLoopActions s pushes ∧
    SendAction.spinIncr ∉ sendLoopActions s pushes := by
  constructor <;> intro hmem <;>
    rcases sendLoopActions_mem pushes s _ hmem with h | h | h <;> simp at h

/-- The fields of `SharedMemPipePtr` that its `Drop` implementation reads:
whether the pointer is still present (it always is for handles returned by
`create` and `open_existing`) and the `attempt_drop` flag that
`post_initialization` sets. -/
structure DropState where
  ptr_present : Bool
  attempt_drop : Bool

/-- The externally visible effects of `Drop for SharedMemPipePtr`. -/
structure DropEffects where
  tombstoned : Bool
  munmapCalled : Bool
deriving DecidableEq

/-- `Drop for SharedMemPipePtr`, branch for branch: the teardown block is
guarded by `if false && self.attempt_drop` and the unmap by
`if false && do_unmap` (with `do_unmap = true` outside tests), so neither
ever runs. -/
def sharedMemPipePtrDrop (s : DropState) : DropEffects :=
  if s.ptr_present then
    { tombstoned := false && s.attempt_drop,
      munmapCalled := false && true }
  else
    { tombstoned := false, munmapCalled := false }

/-- C9 counterexample: dropping a live handle (pointer present, as for every
handle returned by `create` or `open_existing`) does not invoke `munmap`,
contrary to the claim. -/
theorem drop_munmap_cex :
    (sharedMemPipePtrDrop ⟨true, true⟩).munmapCalled = false := by decide

/-- C9 amended: dropping the segment handle never unmaps the region and
never tombstones the magic word; both branches are statically disabled by a
`false &&` guard in the source. -/
theorem drop_never_munmaps (s : DropState) :
    (sharedMemPipePtrDrop s).munmapCalled = false ∧
    (sharedMemPipePtrDrop s).tombstoned = false := by
  rcases s with ⟨p, a⟩
  cases p <;> cases a <;> simp [sharedMemPipePtrDrop]

/-- Observable outcome of one `write_all` call: its return value, how many
times it posted the response-written semaphore, and how many times it
decremented `to_worker_waiters`. -/
structure WriteEffects where
  ret : Nat
  posts : Nat
  decs : Nat
deriving DecidableEq

/-- The push loop of `write_all`.  `pushes` lists what `push_slice` accepts
on successive iterations (capped by the bytes still unsent); `rem` is the
unsent byte count, `woken` the flag that suppresses further semaphore posts,
`posts` the posts so far.  Each iteration pushes, posts once if not yet
woken, and on completion decrements `to_worker_waiters` once and returns the
full length.  Running out of `pushes` before completion means the loop is
still spinning: `none`. -/
def writeAllGo (bufLen : Nat) : List Nat → Nat → Bool → Nat → Option WriteEffects
  | [], _, _, _ => none
  | p :: rest, rem, woken, posts =>
    if rem - min p rem = 0 then
      some ⟨bufLen, if woken then posts else posts + 1, 1⟩
    else
      writeAllGo bufLen rest (rem - min p rem) true
        (if woken then posts else posts + 1)

/-- `OwnedResponder::write_all`: an empty buffer returns 0 before touching
any shared state; otherwise the loop runs with `woken` initialized to the
negation of `USE_EVENTFD_ON_RESPONSE` (passed here as `useEventfd`). -/
def write_all (useEventfd : Bool) (pushes : List Nat) (bufLen : Nat) :
    Option WriteEffects :=
  if bufLen = 0 then some ⟨0, 0, 0⟩
  else writeAllGo bufLen pushes bufLen (!useEventfd) 0

theorem writeAllGo_spec (bufLen : Nat) (pushes : List Nat) :
    ∀ (rem : Nat) (w : Bool) (p : Nat) (e : WriteEffects),
      writeAllGo bufLen pushes rem w p = some e →
      e.ret = bufLen ∧ e.decs = 1 ∧ e.posts = (if w then p else p + 1) := by
  induction pushes with
  | nil =>
    intro rem w p e h
    simp [writeAllGo] at h
  | cons q rest ih =>
    intro rem w p e h
    simp only [writeAllGo] at h
    by_cases hr : rem - min q rem = 0
    · rw [if_pos hr] at h
      obtain rfl := Option.some_inj.mp h
      exact ⟨rfl, rfl, rfl⟩
    · rw [if_neg hr] at h
      have h2 := ih _ _ _ _ h
      simpa using h2

/-- C10: `write_all` on an empty buffer returns 0 with no semaphore post and
no `to_worker_waiters` decrement; every completed call on a non-empty buffer
posts the response-written semaphore exactly once when eventfd-on-response is
enabled (never when disabled), decrements `to_worker_waiters` exactly once,
and returns the buffer length. -/
theorem write_all_effects (flag : Bool) (pushes : List Nat) (bufLen : Nat)
    (e : WriteEffects) (hne : bufLen ≠ 0)
    (hdone : write_all flag pushes bufLen = some e) :
    write_all flag pushes 0 = some ⟨0, 0, 0⟩ ∧
    e.ret = bufLen ∧ e.decs = 1 ∧ e.posts = (if flag then 1 else 0) := by
  refine ⟨rfl, ?_⟩
  rw [write_all, if_neg hne] at hdone
  obtain ⟨h1, h2, h3⟩ := writeAllGo_spec bufLen pushes bufLen (!flag) 0 e hdone
  refine ⟨h1, h2, ?_⟩
  rw [h3]
  cases flag <;> rfl

theorem write_all_effects_witness :
    (⟨3, 1, 1⟩ : WriteEffects).ret = 3 ∧ (⟨3, 1, 1⟩ : WriteEffects).decs = 1 ∧
      (⟨3, 1, 1⟩ : WriteEffects).posts = (if true then 1 else 0) :=
  (write_all_effects true [10] 3 ⟨3, 1, 1⟩ (by decide) (by decide)).2

end Shmempipe
